import Mathlib

/-!
Shallow embedding of the replicate-identification and ranking-metric engine of
cytominer-eval: the `assign_replicates` pair labeler, the per-group
precision/recall calculator (`calculate_precision_recall`), the average
precision calculator (`calculate_average_precision`), the `precision_recall`
orchestrator and the `enrichment` calculator.

Similarity scores are exact rationals.  numpy float division of the kind
`0/0` (the only zero-denominator division reachable in this code) yields NaN,
modelled as `none` of `Option ℚ`.  Tables are lists of rows; pandas
`iloc[:k]` is `List.take`, `query`/boolean filters are `List.filter`, and
`groupby` is partitioning by the (A-side) groupby key.
-/

/-- One row of the melted similarity table (spec section 3).  `a`, `b` are the
opaque profile identifiers of the two sides of the pair; `keyA`, `keyB` are the
Replicate Group Keys resolved from the A-side and B-side metadata columns
(tuples of metadata values, modelled as one opaque natural); `groupA`, `groupB`
are the groupby-key values of the two sides (the suffixed `groupby_columns`);
`similarity_metric` is the pairwise similarity score. -/
structure MeltedRow where
  a : ℕ
  b : ℕ
  keyA : ℕ
  keyB : ℕ
  groupA : ℕ
  groupB : ℕ
  similarity_metric : ℚ
deriving DecidableEq

/-- A labeled row: a melted row extended with the `group_replicate` column. -/
structure LabeledRow where
  a : ℕ
  b : ℕ
  keyA : ℕ
  keyB : ℕ
  groupA : ℕ
  groupB : ℕ
  similarity_metric : ℚ
  group_replicate : Bool
deriving DecidableEq

/-- Modelled from the spec: `assign_replicates` lives in
`cytominer_eval/utils/operation_utils.py`, which is not under `src/`.
Per spec section 4.1 it is a column-adding transform dropping no rows:
`group_replicate = (key_A == key_B)`, exact equality of the replicate-group
keys of the two sides. -/
def assign_replicates (t : List MeltedRow) : List LabeledRow :=
  t.map (fun r =>
    LabeledRow.mk r.a r.b r.keyA r.keyB r.groupA r.groupB r.similarity_metric
      (decide (r.keyA = r.keyB)))

/-- `sum(df.group_replicate)`: the number of rows labeled as replicate pairs. -/
def countTrue (rows : List LabeledRow) : ℕ :=
  rows.countP (fun r => r.group_replicate)

/-- numpy scalar division `a / b` of the nonnegative counts appearing in
`precisionrecall_utils.py`.  A zero denominator there always comes with a zero
numerator (hits are counted inside the set counted by the denominator), and
numpy evaluates `0/0` to NaN (with a warning) instead of raising, modelled as
`none`. -/
def npDiv (x y : ℕ) : Option ℚ :=
  if y = 0 then none else some ((x : ℚ) / (y : ℚ))

/-- The `k` argument of `calculate_precision_recall`: a finite integer, or the
string `"R"` selecting the natural cutoff. -/
inductive KParam where
  | kInt (k : ℕ) : KParam
  | kR : KParam
deriving DecidableEq

/-- The return bundle of `calculate_precision_recall`: in the finite-`k` branch
a series with keys `k`, `precision`, `recall`; in the `"R"` branch a series
with keys `R`, `precision` (no recall key). -/
inductive PRBundle where
  | atK (k : ℕ) (precision : Option ℚ) (recallValue : Option ℚ) : PRBundle
  | atR (R : ℕ) (precision : Option ℚ) : PRBundle
deriving DecidableEq

/-- `calculate_precision_recall` of
`src/cytominer_eval/utils/precisionrecall_utils.py` (lines 16-68).
The group is the already-sorted slice handed over by `groupby().apply()`.
`iloc[:k]` is `take k`; in the `"R"` branch the cutoff is
`R = sum(group_replicate)` and only `R` and `precision` are returned. -/
def calculate_precision_recall (rows : List LabeledRow) : KParam → PRBundle
  | KParam.kInt k =>
      PRBundle.atK k (npDiv (countTrue (rows.take k)) k)
        (npDiv (countTrue (rows.take k)) (countTrue rows))
  | KParam.kR =>
      PRBundle.atR (countTrue rows)
        (npDiv (countTrue (rows.take (countTrue rows))) (countTrue rows))

/-- `yscore[yscore < 0] = 0`: a negative similarity score is floored to 0. -/
def clampScore (q : ℚ) : ℚ :=
  if q < 0 then 0 else q

/-- The effect of `yscore[yscore < 0] = 0` on a labeled row: `yscore` aliases
the `similarity_metric` column of the group dataframe, so the clamp writes the
floored value back into that column of the group. -/
def clampLabeled (r : LabeledRow) : LabeledRow :=
  LabeledRow.mk r.a r.b r.keyA r.keyB r.groupA r.groupB
    (clampScore r.similarity_metric) r.group_replicate

/-- Flooring negative similarity scores on a melted (unlabeled) row; used to
state that `enrichment` operates on raw, unclamped scores. -/
def clampMelted (r : MeltedRow) : MeltedRow :=
  MeltedRow.mk r.a r.b r.keyA r.keyB r.groupA r.groupB
    (clampScore r.similarity_metric)

/-- `true` when the current score `s` closes a tie block of the
descending-sorted score list: the list is exhausted or the next score
differs. -/
def blockEnd (rest : List (ℚ × Bool)) (s : ℚ) : Bool :=
  match rest with
  | [] => true
  | (s2, _) :: _ => decide (s2 ≠ s)

/-- Scan of the descending-sorted (score, label) list accumulating
`sum((TP_i - TP_prev) * TP_i / i)` over the positions `i` that close a block of
tied scores, where `TP_i` counts true labels among the first `i` entries and
`TP_prev` is the true count at the end of the previous block.  `m`, `tp`, `tpb`
are the entries consumed so far, the true count so far and the true count at
the last block boundary. -/
def apScan (l : List (ℚ × Bool)) (m tp tpb : ℕ) : ℚ :=
  match l with
  | [] => 0
  | (s, t) :: rest =>
      let m1 := m + 1
      let tp1 := tp + (if t then 1 else 0)
      if blockEnd rest s then
        ((tp1 : ℚ) - (tpb : ℚ)) * ((tp1 : ℚ) / (m1 : ℚ)) + apScan rest m1 tp1 tp1
      else
        apScan rest m1 tp1 tpb

/-- Model of the external `sklearn.metrics.average_precision_score` on binary
labels: the non-interpolated area `AP = sum((R_i - R_prev) * P_i)` over the
distinct-threshold points of the descending-sorted scores (tied scores form one
block and contribute a single point).  With no positive label sklearn evaluates
`recall = tps / 0`, producing NaN (`none`).  sklearn sorts by score only, so
the order of tied entries does not affect the value; the model uses a stable
descending insertion sort. -/
def average_precision_score (ytrue : List Bool) (yscore : List ℚ) : Option ℚ :=
  if ytrue.count true = 0 then none
  else
    some (apScan (List.insertionSort (fun x y : ℚ × Bool => y.1 ≤ x.1) (yscore.zip ytrue)) 0 0 0
      / (ytrue.count true : ℚ))

/-- `calculate_average_precision` of
`src/cytominer_eval/utils/precisionrecall_utils.py` (lines 5-13), with the
in-place update made explicit: `yscore = df.similarity_metric.values` aliases
the group's column, `yscore[yscore < 0] = 0` floors the negative entries of
that column, and sklearn's average precision is evaluated on the floored
scores with `group_replicate` as ground truth.  The second component is the
state of the group dataframe after the call. -/
def calculate_average_precision (rows : List LabeledRow) : Option ℚ × List LabeledRow :=
  (average_precision_score (rows.map (fun r => r.group_replicate))
      ((rows.map clampLabeled).map (fun r => r.similarity_metric)),
   rows.map clampLabeled)

/-- The labeled table of `precision_recall`, sorted by `similarity_metric`
descending (`sort_values(by="similarity_metric", ascending=False)`).  pandas
uses an unstable quicksort and the order of tied scores is unspecified (spec
section 9); the model fixes a stable descending insertion sort. -/
def sortedLabeled (t : List MeltedRow) : List LabeledRow :=
  List.insertionSort (fun x y : LabeledRow => y.similarity_metric ≤ x.similarity_metric)
    (assign_replicates t)

/-- The groupby keys of the labeled table: distinct A-side groupby values, in
ascending order (pandas `groupby` sorts group keys). -/
def groupKeys (l : List LabeledRow) : List ℕ :=
  List.insertionSort (fun x y : ℕ => x ≤ y) ((l.map (fun r => r.groupA)).dedup)

/-- The rows of one group, in table order (pandas `groupby` preserves the
within-group row order, here the descending-similarity order). -/
def groupRows (l : List LabeledRow) (g : ℕ) : List LabeledRow :=
  l.filter (fun r => decide (r.groupA = g))

/-- The `k` argument of the orchestrator: a scalar integer, the scalar string
`"R"`, or a list of values. -/
inductive KInput where
  | scalarInt (n : ℕ) : KInput
  | scalarR : KInput
  | ofList (ks : List KParam) : KInput

/-- `if type(k) == int: k = [k]`: a scalar integer is wrapped into a
one-element list.  A scalar string is not wrapped; the subsequent
`for k_ in k` iterates over its characters, and for the one-character string
`"R"` this yields the single element `"R"`.  A list is used as given. -/
def normalizeK : KInput → List KParam
  | KInput.scalarInt n => [KParam.kInt n]
  | KInput.scalarR => [KParam.kR]
  | KInput.ofList ks => ks

/-- `precision_recall` of `src/cytominer_eval/operations/precision_recall.py`
(lines 14-79): label the table, sort it by descending similarity, then for
every requested `k` apply `calculate_precision_recall` to every group
(`pd.concat` accumulates the per-`k` tables), and apply
`calculate_average_precision` to every group once.  Rows of the two output
tables are modelled as (groupby key, result) pairs; the suffix renaming and
index resetting of the original only relabel columns and are omitted.
`groupby().apply()` hands each callee a fresh copy of the group's rows (pandas
semantics), so the in-place clamp inside `calculate_average_precision` mutates
only that copy, whose final state is discarded here exactly as in the source;
the third component returned is the caller's table, threaded through
explicitly to make the absence of writes to it a stated fact rather than a
convention. -/
def precision_recall (t : List MeltedRow) (kIn : KInput) :
    (List (ℕ × PRBundle) × List (ℕ × Option ℚ)) × List MeltedRow :=
  ((
    (normalizeK kIn).flatMap (fun kp =>
      (groupKeys (sortedLabeled t)).map (fun g =>
        (g, calculate_precision_recall (groupRows (sortedLabeled t) g) kp))),
    (groupKeys (sortedLabeled t)).map (fun g =>
      (g, (calculate_average_precision (groupRows (sortedLabeled t) g)).1))),
   t)

/-- pandas `Series.quantile(p)` with the default linear interpolation: with the
values sorted ascending as `s` and `h = p * (n - 1)`,
`quantile = s[floor h] + (h - floor h) * (s[floor h + 1] - s[floor h])`.
An empty series gives NaN in pandas; the model is only used on nonempty
tables. -/
def quantileLinear (xs : List ℚ) (p : ℚ) : ℚ :=
  let s := List.insertionSort (fun x y : ℚ => x ≤ y) xs
  if s.length = 0 then 0
  else
    let h : ℚ := p * ((s.length : ℚ) - 1)
    let i : ℕ := (⌊h⌋).toNat
    let lo := s.getD i 0
    let hi := s.getD (i + 1) lo
    lo + (h - (i : ℚ)) * (hi - lo)

/-- `len(df.query("group_replicate==True and similarity_metric>@threshold"))`. -/
def v11 (l : List LabeledRow) (threshold : ℚ) : ℕ :=
  (l.filter (fun r => r.group_replicate && decide (threshold < r.similarity_metric))).length

/-- `len(df.query("group_replicate==False and similarity_metric>@threshold"))`. -/
def v12 (l : List LabeledRow) (threshold : ℚ) : ℕ :=
  (l.filter (fun r => !r.group_replicate && decide (threshold < r.similarity_metric))).length

/-- `len(df.query("group_replicate==True and similarity_metric<=@threshold"))`. -/
def v21 (l : List LabeledRow) (threshold : ℚ) : ℕ :=
  (l.filter (fun r => r.group_replicate && decide (r.similarity_metric ≤ threshold))).length

/-- `len(df.query("group_replicate==False and similarity_metric<=@threshold"))`. -/
def v22 (l : List LabeledRow) (threshold : ℚ) : ℕ :=
  (l.filter (fun r => !r.group_replicate && decide (r.similarity_metric ≤ threshold))).length

/-- `enrichment` of `src/cytominer_eval/operations/enrichment.py` (lines
12-84).  `fisher` abstracts the external
`scipy.stats.fisher_exact([[v11, v12], [v21, v22]] / 2, alternative="greater")`
call, receiving the four halved cells row-major and returning
(odds ratio, p-value).  Each output row is the emitted dict, modelled as its
(key, value) pairs in insertion order — `pd.DataFrame(result)` turns those
keys into the columns.  A scalar float percentile is wrapped into a
one-element list upstream (`if type(percentile) == float`), so the model takes
the list. -/
def enrichment (fisher : ℚ → ℚ → ℚ → ℚ → ℚ × ℚ) (t : List MeltedRow) (ps : List ℚ) :
    List (List (String × ℚ)) :=
  ps.map (fun p =>
    let threshold := quantileLinear (t.map (fun r => r.similarity_metric)) p
    let r := fisher ((v11 (assign_replicates t) threshold : ℚ) / 2)
      ((v12 (assign_replicates t) threshold : ℚ) / 2)
      ((v21 (assign_replicates t) threshold : ℚ) / 2)
      ((v22 (assign_replicates t) threshold : ℚ) / 2)
    [("enrichment_percentile", p), ("threshold", threshold),
     ("ods_ratio", r.1), ("p-value", r.2)])

/-- The mirrored direction of a pair: profiles, replicate-group keys and
groupby keys swap sides, the similarity value is shared. -/
def mirror (r : MeltedRow) : MeltedRow :=
  MeltedRow.mk r.b r.a r.keyB r.keyA r.groupB r.groupA r.similarity_metric

/-- Rank-accumulator for the spec's average-precision formula: over the
descending-ranked label list, `sum(precision@i * rel(i))`, where
`precision@i = TP_i / i`. -/
def perRank (l : List Bool) (m tp : ℕ) : ℚ :=
  match l with
  | [] => 0
  | t :: rest =>
      let m1 := m + 1
      let tp1 := tp + (if t then 1 else 0)
      (if t then (tp1 : ℚ) / (m1 : ℚ) else 0) + perRank rest m1 tp1

/-- The claim's definition of average precision (spec section 4.3), stated
from the spec's words for comparison with the code model: rank all items by
score descending, then
`AP = sum over ranks of precision-at-rank times is-relevant-at-rank, divided
by the number of relevant items`. -/
def standardAveragePrecision (ytrue : List Bool) (yscore : List ℚ) : ℚ :=
  perRank ((List.insertionSort (fun x y : ℚ × Bool => y.1 ≤ x.1) (yscore.zip ytrue)).map Prod.snd)
    0 0 / (ytrue.count true : ℚ)

/-- Hits among the first `k` rows never exceed the group's replicate total. -/
theorem countTrue_take_le (rows : List LabeledRow) (k : ℕ) :
    countTrue (rows.take k) ≤ countTrue rows :=
  List.Sublist.countP_le _ (List.take_sublist k rows)

/-- C1: for every group of rows sorted by descending `similarity_metric` and
every finite integer cutoff `k` (positive, and with a positive replicate total
so that both divisions are defined), `calculate_precision_recall` returns the
bundle whose cutoff field echoes `k`, whose precision is `hits / k` and whose
recall is `hits / R`, where `hits` counts `group_replicate = true` rows among
the first `k` rows of the group and `R` counts them in the whole group. -/
theorem claim_C1 (rows : List LabeledRow) (k : ℕ)
    (hsorted : List.Pairwise
      (fun x y : LabeledRow => y.similarity_metric ≤ x.similarity_metric) rows)
    (hk : 0 < k) (hR : 0 < countTrue rows) :
    calculate_precision_recall rows (KParam.kInt k)
      = PRBundle.atK k (some ((countTrue (rows.take k) : ℚ) / (k : ℚ)))
          (some ((countTrue (rows.take k) : ℚ) / (countTrue rows : ℚ))) := by
  simp [calculate_precision_recall, npDiv, hk.ne', hR.ne']

/-- The spec's own test group, flags `[true, false, true]` in descending
similarity order. -/
def rowsC1 : List LabeledRow :=
  [LabeledRow.mk 0 1 1 1 0 1 3 true,
   LabeledRow.mk 0 2 1 2 0 2 2 false,
   LabeledRow.mk 0 3 1 1 0 3 1 true]

/-- Witness for C1 at the group `[true, false, true]` with `k = 1`. -/
theorem claim_C1_witness :
    calculate_precision_recall rowsC1 (KParam.kInt 1)
      = PRBundle.atK 1 (some ((countTrue (rowsC1.take 1) : ℚ) / ((1 : ℕ) : ℚ)))
          (some ((countTrue (rowsC1.take 1) : ℚ) / (countTrue rowsC1 : ℚ))) :=
  claim_C1 rowsC1 1 (by decide) (by decide) (by decide)

/-- C3: for a group sorted by descending similarity and `k = "R"`,
`calculate_precision_recall` uses the natural cutoff `R = countTrue rows`,
returns `precision = hits-among-top-R / R`, names the cutoff field `R`
(constructor `atR`) and omits the recall field. -/
theorem claim_C3 (rows : List LabeledRow)
    (hsorted : List.Pairwise
      (fun x y : LabeledRow => y.similarity_metric ≤ x.similarity_metric) rows)
    (hR : 0 < countTrue rows) :
    calculate_precision_recall rows KParam.kR
      = PRBundle.atR (countTrue rows)
          (some ((countTrue (rows.take (countTrue rows)) : ℚ) / (countTrue rows : ℚ))) := by
  simp [calculate_precision_recall, npDiv, hR.ne']

/-- Witness for C3 at the group `[true, false, true]` (R = 2). -/
theorem claim_C3_witness :
    calculate_precision_recall rowsC1 KParam.kR
      = PRBundle.atR (countTrue rowsC1)
          (some ((countTrue (rowsC1.take (countTrue rowsC1)) : ℚ) / (countTrue rowsC1 : ℚ))) :=
  claim_C3 rowsC1 (by decide) (by decide)

/-- C10: for a group of `n` rows and a finite `k > n`,
`calculate_precision_recall` returns normally: the top-`k` slice truncates at
the group size, so hits are counted over all `n` rows, the precision
denominator stays `k` (hence `precision ≤ n / k`), and recall is `hits / R`
as usual (`npDiv` capturing the `0/0 → NaN` case). -/
theorem claim_C10 (rows : List LabeledRow) (k : ℕ) (hk : rows.length < k) :
    calculate_precision_recall rows (KParam.kInt k)
      = PRBundle.atK k (some ((countTrue rows : ℚ) / (k : ℚ)))
          (npDiv (countTrue rows) (countTrue rows))
      ∧ (countTrue rows : ℚ) / (k : ℚ) ≤ (rows.length : ℚ) / (k : ℚ) := by
  have htake : rows.take k = rows := List.take_of_length_le hk.le
  have hkz : ¬ k = 0 := by omega
  refine ⟨by simp [calculate_precision_recall, npDiv, htake, hkz], ?_⟩
  refine div_le_div_of_nonneg_right ?_ (by positivity)
  exact_mod_cast List.countP_le_length _

/-- Witness for C10: a two-row group queried with `k = 5`. -/
def rowsC10 : List LabeledRow :=
  [LabeledRow.mk 0 1 1 1 0 1 2 true,
   LabeledRow.mk 0 2 1 2 0 2 1 false]

/-- Witness for C10 at the two-row group and `k = 5`. -/
theorem claim_C10_witness :
    calculate_precision_recall rowsC10 (KParam.kInt 5)
      = PRBundle.atK 5 (some ((countTrue rowsC10 : ℚ) / ((5 : ℕ) : ℚ)))
          (npDiv (countTrue rowsC10) (countTrue rowsC10))
      ∧ (countTrue rowsC10 : ℚ) / ((5 : ℕ) : ℚ) ≤ (rowsC10.length : ℚ) / ((5 : ℕ) : ℚ) :=
  claim_C10 rowsC10 5 (by decide)

/-- C5: the orchestrator treats a scalar `k` exactly like the one-element
list: a scalar integer `n` is wrapped to `[n]`, the scalar string `"R"` is
iterated character-wise yielding the single `"R"` evaluation; and for a list
of `k` values the PrecisionRecallTable is the concatenation of the tables
produced for each `k` alone — each (group, k) pair evaluated independently,
never aggregated. -/
theorem claim_C5 (t : List MeltedRow) (n : ℕ) (ks : List KParam) :
    (precision_recall t (KInput.scalarInt n)).1.1
        = (precision_recall t (KInput.ofList [KParam.kInt n])).1.1
    ∧ (precision_recall t KInput.scalarR).1.1
        = (precision_recall t (KInput.ofList [KParam.kR])).1.1
    ∧ (precision_recall t (KInput.ofList ks)).1.1
        = ks.flatMap (fun kp => (precision_recall t (KInput.ofList [kp])).1.1) := by
  refine ⟨rfl, rfl, ?_⟩
  simp [precision_recall, normalizeK]

/-- A group containing a negative similarity score, demonstrating that the
in-place clamp of `calculate_average_precision` really rewrites the group
copy it receives. -/
def rowsC9 : List LabeledRow :=
  [LabeledRow.mk 0 1 1 2 0 1 (-3) false,
   LabeledRow.mk 0 2 1 1 0 2 2 true]

/-- C9: `precision_recall` is free of effects on its caller: the input table
threaded through the orchestrator comes back unchanged, every
`similarity_metric` value included, although the clamp inside
`calculate_average_precision` does rewrite the per-group copy it is handed
(pandas `groupby().apply()` passes copies, so the write never reaches the
caller's table). -/
theorem claim_C9 :
    (∀ (t : List MeltedRow) (kIn : KInput), (precision_recall t kIn).2 = t)
    ∧ (∀ (t : List MeltedRow) (kIn : KInput),
        ((precision_recall t kIn).2).map (fun r => r.similarity_metric)
          = t.map (fun r => r.similarity_metric))
    ∧ (calculate_average_precision rowsC9).2 ≠ rowsC9 :=
  ⟨fun _ _ => rfl, fun _ _ => rfl, by decide⟩

/-- Claim-side counter: replicate rows strictly above the threshold, over the
whole labeled table. -/
def nRepAbove (t : List MeltedRow) (thr : ℚ) : ℕ :=
  (assign_replicates t).countP
    (fun r => r.group_replicate && decide (thr < r.similarity_metric))

/-- Claim-side counter: non-replicate rows strictly above the threshold. -/
def nNonRepAbove (t : List MeltedRow) (thr : ℚ) : ℕ :=
  (assign_replicates t).countP
    (fun r => !r.group_replicate && decide (thr < r.similarity_metric))

/-- Claim-side counter: replicate rows at or below the threshold. -/
def nRepBelow (t : List MeltedRow) (thr : ℚ) : ℕ :=
  (assign_replicates t).countP
    (fun r => r.group_replicate && decide (r.similarity_metric ≤ thr))

/-- Claim-side counter: non-replicate rows at or below the threshold. -/
def nNonRepBelow (t : List MeltedRow) (thr : ℚ) : ℕ :=
  (assign_replicates t).countP
    (fun r => !r.group_replicate && decide (r.similarity_metric ≤ thr))

/-- C2: for every table and every list of requested percentiles, `enrichment`
emits exactly one row per percentile `p`, holding `p` itself, the `p`-quantile
of `similarity_metric` over the whole input table as threshold, and the two
Fisher-test outputs (odds ratio, then p-value) obtained from the 2×2 table
`[[v11, v12], [v21, v22]]` counted over the whole labeled table — replicate
and above threshold, non-replicate and above, replicate and at-or-below,
non-replicate and at-or-below — with every cell divided by 2 before the test.
`fisher` abstracts the external one-sided "greater" Fisher exact test. -/
theorem claim_C2 (fisher : ℚ → ℚ → ℚ → ℚ → ℚ × ℚ) (t : List MeltedRow) (ps : List ℚ) :
    enrichment fisher t ps = ps.map (fun p =>
      let thr := quantileLinear (t.map (fun r => r.similarity_metric)) p
      [("enrichment_percentile", p),
       ("threshold", thr),
       ("ods_ratio", (fisher ((nRepAbove t thr : ℚ) / 2) ((nNonRepAbove t thr : ℚ) / 2)
          ((nRepBelow t thr : ℚ) / 2) ((nNonRepBelow t thr : ℚ) / 2)).1),
       ("p-value", (fisher ((nRepAbove t thr : ℚ) / 2) ((nNonRepAbove t thr : ℚ) / 2)
          ((nRepBelow t thr : ℚ) / 2) ((nNonRepBelow t thr : ℚ) / 2)).2)]) := by
  simp [enrichment, v11, v12, v21, v22, nRepAbove, nNonRepAbove, nRepBelow, nNonRepBelow,
    List.countP_eq_length_filter]

/-- A degenerate Fisher stub used to evaluate the enrichment row shape on
concrete input. -/
def fisherZero : ℚ → ℚ → ℚ → ℚ → ℚ × ℚ := fun _ _ _ _ => (0, 0)

/-- A one-row melted table. -/
def tC7 : List MeltedRow := [MeltedRow.mk 0 1 1 1 0 1 1]

/-- C7 counterexample: on a concrete one-row table at percentile 1/2 the
emitted columns are `enrichment_percentile`, `threshold`, `ods_ratio`,
`p-value` — not the claimed spellings `odds_ratio` and `p_value`. -/
theorem claim_C7_cex :
    (enrichment fisherZero tC7 [1/2]).map (fun row => row.map Prod.fst)
        = [["enrichment_percentile", "threshold", "ods_ratio", "p-value"]]
    ∧ ¬ (enrichment fisherZero tC7 [1/2]).map (fun row => row.map Prod.fst)
        = [["enrichment_percentile", "threshold", "odds_ratio", "p_value"]] := by
  decide

/-- C7 (amended): the table returned by `enrichment` has exactly the columns
`enrichment_percentile`, `threshold`, `ods_ratio` and `p-value` (the source's
spellings of the odds-ratio and p-value columns, in that order), and exactly
one row per requested percentile. -/
theorem claim_C7 (fisher : ℚ → ℚ → ℚ → ℚ → ℚ × ℚ) (t : List MeltedRow) (ps : List ℚ) :
    (enrichment fisher t ps).map (fun row => row.map Prod.fst)
        = ps.map (fun _ => ["enrichment_percentile", "threshold", "ods_ratio", "p-value"])
    ∧ (enrichment fisher t ps).length = ps.length := by
  constructor
  · rw [enrichment, List.map_map]
    rfl
  · simp [enrichment]

/-- A countP over the labeled table is a countP over the melted table with the
labeling substituted into the predicate. -/
theorem countP_assign_replicates (t : List MeltedRow) (p : LabeledRow → Bool) :
    (assign_replicates t).countP p
      = t.countP (fun r =>
          p (LabeledRow.mk r.a r.b r.keyA r.keyB r.groupA r.groupB r.similarity_metric
              (decide (r.keyA = r.keyB)))) := by
  simp [assign_replicates, List.countP_map]
  rfl

/-- Any count of a mirror-invariant property over a perfectly mirrored table
is even. -/
theorem countP_even_of_mirrored (t base : List MeltedRow) (q : MeltedRow → Bool)
    (hq : ∀ r, q (mirror r) = q r)
    (hperm : t.Perm (base ++ base.map mirror)) :
    Even (t.countP q) := by
  rw [hperm.countP_eq q, List.countP_append, List.countP_map]
  have hcomp : q ∘ mirror = q := funext hq
  rw [hcomp]
  exact ⟨base.countP q, rfl⟩

/-- Swapping the sides of a pair does not change its replicate label. -/
theorem decide_keys_mirror (r : MeltedRow) :
    decide (r.keyB = r.keyA) = decide (r.keyA = r.keyB) :=
  decide_eq_decide.mpr eq_comm

/-- C8: on a perfectly symmetric table — every unordered pair present in both
directions with the same similarity and replicate label, no self-pairs,
formalised as a permutation of `base ++ base.map mirror` together with the
no-self-pair condition — each contingency cell `v11`, `v12`, `v21`, `v22`
computed by `enrichment` at any percentile is even, so each halved cell is an
exact integer. -/
theorem claim_C8 (t base : List MeltedRow) (p : ℚ)
    (hmirror : t.Perm (base ++ base.map mirror))
    (hself : ∀ r ∈ t, r.a ≠ r.b) :
    Even (v11 (assign_replicates t)
        (quantileLinear (t.map (fun r => r.similarity_metric)) p))
    ∧ Even (v12 (assign_replicates t)
        (quantileLinear (t.map (fun r => r.similarity_metric)) p))
    ∧ Even (v21 (assign_replicates t)
        (quantileLinear (t.map (fun r => r.similarity_metric)) p))
    ∧ Even (v22 (assign_replicates t)
        (quantileLinear (t.map (fun r => r.similarity_metric)) p)) := by
  have hv11 : ∀ thr, v11 (assign_replicates t) thr
      = t.countP (fun r => decide (r.keyA = r.keyB) && decide (thr < r.similarity_metric)) := by
    intro thr
    rw [v11, ← List.countP_eq_length_filter, countP_assign_replicates]
  have hv12 : ∀ thr, v12 (assign_replicates t) thr
      = t.countP (fun r => !decide (r.keyA = r.keyB) && decide (thr < r.similarity_metric)) := by
    intro thr
    rw [v12, ← List.countP_eq_length_filter, countP_assign_replicates]
  have hv21 : ∀ thr, v21 (assign_replicates t) thr
      = t.countP (fun r => decide (r.keyA = r.keyB) && decide (r.similarity_metric ≤ thr)) := by
    intro thr
    rw [v21, ← List.countP_eq_length_filter, countP_assign_replicates]
  have hv22 : ∀ thr, v22 (assign_replicates t) thr
      = t.countP (fun r => !decide (r.keyA = r.keyB) && decide (r.similarity_metric ≤ thr)) := by
    intro thr
    rw [v22, ← List.countP_eq_length_filter, countP_assign_replicates]
  refine ⟨?_, ?_, ?_, ?_⟩
  · rw [hv11]
    exact countP_even_of_mirrored t base _
      (fun r => by simp [mirror, decide_keys_mirror]) hmirror
  · rw [hv12]
    exact countP_even_of_mirrored t base _
      (fun r => by simp [mirror, decide_keys_mirror]) hmirror
  · rw [hv21]
    exact countP_even_of_mirrored t base _
      (fun r => by simp [mirror, decide_keys_mirror]) hmirror
  · rw [hv22]
    exact countP_even_of_mirrored t base _
      (fun r => by simp [mirror, decide_keys_mirror]) hmirror

/-- A one-pair canonical table for the C8 witness. -/
def baseC8 : List MeltedRow := [MeltedRow.mk 0 1 3 3 0 1 2]

/-- The mirrored two-row table built from `baseC8`. -/
def tC8 : List MeltedRow := baseC8 ++ baseC8.map mirror

/-- Witness for C8 at the mirrored two-row table and percentile 1/2. -/
theorem claim_C8_witness :
    Even (v11 (assign_replicates tC8)
        (quantileLinear (tC8.map (fun r => r.similarity_metric)) (1/2)))
    ∧ Even (v12 (assign_replicates tC8)
        (quantileLinear (tC8.map (fun r => r.similarity_metric)) (1/2)))
    ∧ Even (v21 (assign_replicates tC8)
        (quantileLinear (tC8.map (fun r => r.similarity_metric)) (1/2)))
    ∧ Even (v22 (assign_replicates tC8)
        (quantileLinear (tC8.map (fun r => r.similarity_metric)) (1/2))) :=
  claim_C8 tC8 baseC8 (1/2) (List.Perm.refl _) (by decide)

/-- The `y_true` vector handed to sklearn counts exactly the group's
replicate rows as positives. -/
theorem count_true_map (rows : List LabeledRow) :
    (rows.map (fun r => r.group_replicate)).count true = countTrue rows := by
  rw [List.count, List.countP_map]
  simp only [Function.comp_def, beq_true]
  rfl

/-- A group without a single replicate row makes sklearn's average precision
NaN (`none`): the recall normalisation divides by zero positives. -/
theorem ap_none_of_no_replicates (rows : List LabeledRow)
    (h : countTrue rows = 0) :
    (calculate_average_precision rows).1 = none := by
  have hc : (rows.map (fun r => r.group_replicate)).count true = 0 :=
    (count_true_map rows).trans h
  simp [calculate_average_precision, average_precision_score, hc]

/-- C6: a group with zero `group_replicate = true` rows yields NaN for the
undefined quantities — recall at a finite `k` (its row still carrying
`precision = 0/k = 0`), precision in `"R"` mode (cutoff `R = 0`), and average
precision — while the call completes and the output tables still contain one
row per group (per requested `k`), so the degenerate group blocks nothing. -/
theorem claim_C6 (t : List MeltedRow) (g : ℕ) (k : ℕ)
    (hg : g ∈ groupKeys (sortedLabeled t))
    (hzero : countTrue (groupRows (sortedLabeled t) g) = 0)
    (hk : 0 < k) :
    (g, PRBundle.atK k (some 0) none) ∈ (precision_recall t (KInput.scalarInt k)).1.1
    ∧ (g, PRBundle.atR 0 none) ∈ (precision_recall t KInput.scalarR).1.1
    ∧ (g, (none : Option ℚ)) ∈ (precision_recall t (KInput.scalarInt k)).1.2
    ∧ (precision_recall t (KInput.scalarInt k)).1.1.length
        = (groupKeys (sortedLabeled t)).length
    ∧ (precision_recall t KInput.scalarR).1.2.length
        = (groupKeys (sortedLabeled t)).length := by
  have hhits : countTrue ((groupRows (sortedLabeled t) g).take k) = 0 :=
    Nat.le_zero.mp (hzero ▸ countTrue_take_le _ k)
  have h1 : calculate_precision_recall (groupRows (sortedLabeled t) g) (KParam.kInt k)
      = PRBundle.atK k (some 0) none := by
    simp [calculate_precision_recall, npDiv, hhits, hzero, hk.ne']
  have h2 : calculate_precision_recall (groupRows (sortedLabeled t) g) KParam.kR
      = PRBundle.atR 0 none := by
    simp [calculate_precision_recall, npDiv, hzero]
  have h3 : (calculate_average_precision (groupRows (sortedLabeled t) g)).1 = none :=
    ap_none_of_no_replicates _ hzero
  refine ⟨?_, ?_, ?_, ?_, ?_⟩
  · simp only [precision_recall, normalizeK, List.flatMap_cons, List.flatMap_nil,
      List.append_nil]
    exact List.mem_map.mpr ⟨g, hg, by rw [h1]⟩
  · simp only [precision_recall, normalizeK, List.flatMap_cons, List.flatMap_nil,
      List.append_nil]
    exact List.mem_map.mpr ⟨g, hg, by rw [h2]⟩
  · simp only [precision_recall]
    exact List.mem_map.mpr ⟨g, hg, by rw [h3]⟩
  · simp [precision_recall, normalizeK]
  · simp [precision_recall, normalizeK]

/-- A two-group table whose group 0 has no replicate pair and whose group 5
does. -/
def tC6 : List MeltedRow :=
  [MeltedRow.mk 0 1 1 2 0 1 3, MeltedRow.mk 5 6 7 7 5 6 2]

/-- Witness for C6: group 0 of the two-group table, queried at `k = 1`. -/
theorem claim_C6_witness :
    (0, PRBundle.atK 1 (some 0) none) ∈ (precision_recall tC6 (KInput.scalarInt 1)).1.1
    ∧ (0, PRBundle.atR 0 none) ∈ (precision_recall tC6 KInput.scalarR).1.1
    ∧ (0, (none : Option ℚ)) ∈ (precision_recall tC6 (KInput.scalarInt 1)).1.2
    ∧ (precision_recall tC6 (KInput.scalarInt 1)).1.1.length
        = (groupKeys (sortedLabeled tC6)).length
    ∧ (precision_recall tC6 KInput.scalarR).1.2.length
        = (groupKeys (sortedLabeled tC6)).length :=
  claim_C6 tC6 0 1 (by decide) (by decide) (by decide)

/-- Pairwise-distinct scores stay pairwise distinct as the first components of
the zipped (score, label) pairs handed to the sorter. -/
theorem pairwise_fst_zip : ∀ (l1 : List ℚ) (l2 : List Bool),
    List.Pairwise (fun x y : ℚ => x ≠ y) l1 →
    List.Pairwise (fun x y : ℚ × Bool => x.1 ≠ y.1) (l1.zip l2)
  | [], _, _ => by simp
  | _ :: _, [], _ => by simp
  | a :: l1, b :: l2, h => by
    rw [List.zip_cons_cons]
    refine List.Pairwise.cons ?_ (pairwise_fst_zip l1 l2 (List.pairwise_cons.mp h).2)
    intro p hp
    obtain ⟨x, y⟩ := p
    exact (List.pairwise_cons.mp h).1 x (List.of_mem_zip hp).1

/-- On a pairwise-distinct score list every tie block is a singleton, and the
threshold-block scan of the sklearn model reduces to the spec's per-rank
accumulation. -/
theorem apScan_eq_perRank (l : List (ℚ × Bool)) (m tp : ℕ)
    (h : List.Chain' (fun x y : ℚ × Bool => x.1 ≠ y.1) l) :
    apScan l m tp tp = perRank (l.map Prod.snd) m tp := by
  induction l generalizing m tp with
  | nil => simp [apScan, perRank]
  | cons a rest ih =>
    obtain ⟨s, t⟩ := a
    have hbe : blockEnd rest s = true := by
      cases rest with
      | nil => rfl
      | cons b rest2 =>
        have hne : s ≠ b.1 := (List.chain'_cons.mp h).1
        simp only [blockEnd, decide_eq_true_eq]
        exact fun hc => hne hc.symm
    have htail := h.tail
    simp only [apScan, perRank, hbe, if_true, List.map_cons]
    rw [ih _ _ htail]
    cases t <;> simp

/-- Descending similarity is a total relation on labeled rows. -/
instance : IsTotal LabeledRow
    (fun x y => y.similarity_metric ≤ x.similarity_metric) :=
  ⟨fun a b => le_total b.similarity_metric a.similarity_metric⟩

/-- Descending similarity is a transitive relation on labeled rows. -/
instance : IsTrans LabeledRow
    (fun x y => y.similarity_metric ≤ x.similarity_metric) :=
  ⟨fun _ _ _ h1 h2 => le_trans h2 h1⟩

/-- The ranking view of `precision_recall` is sorted by raw
`similarity_metric` descending. -/
theorem sortedLabeled_sorted (t : List MeltedRow) :
    List.Pairwise (fun x y : LabeledRow => y.similarity_metric ≤ x.similarity_metric)
      (sortedLabeled t) :=
  List.sorted_insertionSort _ _

/-- A table with two negative-similarity rows: flooring its scores moves the
median, so the enrichment threshold detects whether raw or clamped scores are
used. -/
def tC4 : List MeltedRow :=
  [MeltedRow.mk 0 1 1 1 0 1 (-4), MeltedRow.mk 0 2 1 2 0 2 (-2),
   MeltedRow.mk 0 3 1 1 0 3 2, MeltedRow.mk 0 4 1 2 0 4 4]

/-- C4 (amended): `calculate_average_precision` first floors every negative
similarity of the group to zero (first conjunct: the group state after the
call is the clamped group) and, provided the clamped scores are pairwise
distinct — so that "ranking by clamped score descending" is unambiguous — and
the group has at least one replicate row, its result is exactly the spec's
per-rank average precision of the clamped scores with `group_replicate` as
ground truth (second conjunct).  No such clamping exists elsewhere: the
precision/recall path ranks by raw similarity descending (third conjunct),
and `enrichment` consumes raw scores — flooring the negative scores of `tC4`
changes its output for every Fisher stub (fourth conjunct). -/
theorem claim_C4 :
    (∀ rows : List LabeledRow,
      (calculate_average_precision rows).2 = rows.map clampLabeled)
    ∧ (∀ rows : List LabeledRow,
        List.Pairwise (fun x y : ℚ => x ≠ y)
          (rows.map (fun r => clampScore r.similarity_metric)) →
        0 < countTrue rows →
        (calculate_average_precision rows).1
          = some (standardAveragePrecision (rows.map (fun r => r.group_replicate))
              (rows.map (fun r => clampScore r.similarity_metric))))
    ∧ (∀ t : List MeltedRow,
        List.Pairwise (fun x y : LabeledRow => y.similarity_metric ≤ x.similarity_metric)
          (sortedLabeled t))
    ∧ (∀ fisher : ℚ → ℚ → ℚ → ℚ → ℚ × ℚ,
        enrichment fisher tC4 [1/2] ≠ enrichment fisher (tC4.map clampMelted) [1/2]) := by
  refine ⟨fun rows => rfl, ?_, fun t => sortedLabeled_sorted t, ?_⟩
  · intro rows hdist hpos
    have hys : (rows.map clampLabeled).map (fun r => r.similarity_metric)
        = rows.map (fun r => clampScore r.similarity_metric) := by
      rw [List.map_map]
      rfl
    have hcz : ¬ (rows.map (fun r => r.group_replicate)).count true = 0 := by
      rw [count_true_map]
      exact hpos.ne'
    show average_precision_score (rows.map (fun r => r.group_replicate))
        ((rows.map clampLabeled).map (fun r => r.similarity_metric)) = _
    rw [hys, average_precision_score, if_neg hcz, standardAveragePrecision]
    have hpz := pairwise_fst_zip (rows.map (fun r => clampScore r.similarity_metric))
      (rows.map (fun r => r.group_replicate)) hdist
    have hperm := List.perm_insertionSort (fun x y : ℚ × Bool => y.1 ≤ x.1)
      ((rows.map (fun r => clampScore r.similarity_metric)).zip
        (rows.map (fun r => r.group_replicate)))
    have hchain := ((hperm.pairwise_iff (fun hxy => Ne.symm hxy)).mpr hpz).chain'
    rw [apScan_eq_perRank _ 0 0 hchain]
  · intro fisher h
    have hcong := congrArg
      (fun ll : List (List (String × ℚ)) =>
        (((ll.headD []).tail).headD ("", 0)).2) h
    have h0 : quantileLinear (List.map (fun r => r.similarity_metric) tC4) (1/2) = 0 := by
      norm_num [quantileLinear, tC4, List.insertionSort, List.orderedInsert]
    have h1 : quantileLinear
        (List.map (fun r => r.similarity_metric) (tC4.map clampMelted)) (1/2) = 1 := by
      norm_num [quantileLinear, tC4, clampMelted, clampScore,
        List.insertionSort, List.orderedInsert]
    simp only [enrichment, List.map_cons, List.map_nil, List.headD_cons,
      List.tail_cons, h0, h1] at hcong
    exact absurd hcong (by norm_num)

/-- A one-group table whose labels are `[true, true, false]` with all three
similarity scores equal; every descending ranking of it is one of the three
permutations of the label sequence. -/
def rowsC4tie : List LabeledRow :=
  [LabeledRow.mk 0 1 1 1 0 1 1 true,
   LabeledRow.mk 0 2 1 1 0 2 1 true,
   LabeledRow.mk 0 3 1 2 0 3 1 false]

/-- C4 counterexample: on the all-tied group `rowsC4tie` the code (sklearn's
non-interpolated block formula) yields `AP = 2/3`, while the claimed per-rank
standard formula yields `1`, `5/6` or `7/12` depending on how the tie is
ranked — never `2/3`.  The claim as stated is therefore false on groups with
tied clamped scores. -/
theorem claim_C4_cex :
    (calculate_average_precision rowsC4tie).1 = some (2/3)
    ∧ ¬ (calculate_average_precision rowsC4tie).1
        = some (standardAveragePrecision (rowsC4tie.map (fun r => r.group_replicate))
            (rowsC4tie.map (fun r => clampScore r.similarity_metric)))
    ∧ ¬ perRank [true, true, false] 0 0 / 2 = (2/3 : ℚ)
    ∧ ¬ perRank [true, false, true] 0 0 / 2 = (2/3 : ℚ)
    ∧ ¬ perRank [false, true, true] 0 0 / 2 = (2/3 : ℚ) := by
  refine ⟨?_, ?_, ?_, ?_, ?_⟩ <;>
    norm_num [calculate_average_precision, average_precision_score,
      standardAveragePrecision, rowsC4tie, clampLabeled, clampScore,
      List.insertionSort, List.orderedInsert, apScan, blockEnd, perRank]

/-- A distinct-score group with labels `[true, false, true]` for the C4
witness. -/
def rowsC4w : List LabeledRow :=
  [LabeledRow.mk 0 1 1 1 0 1 3 true,
   LabeledRow.mk 0 2 1 2 0 2 2 false,
   LabeledRow.mk 0 3 1 1 0 3 1 true]

/-- Witness for C4 at the distinct-score group `rowsC4w`. -/
theorem claim_C4_witness :
    (calculate_average_precision rowsC4w).1
      = some (standardAveragePrecision (rowsC4w.map (fun r => r.group_replicate))
          (rowsC4w.map (fun r => clampScore r.similarity_metric))) :=
  claim_C4.2.1 rowsC4w (by decide) (by decide)
